import Mathlib

/-!
Verification of the chirp data utilities.

This file gives a shallow embedding of the two source modules

  * `chirp/data/filter_scrub_utils.py` — the record filter/scrub helpers
    `not_in` and `scrub`, modelled in the namespace `FilterScrub`;
  * `chirp/data/pipeline.py` — the audio pipeline functions `_trim`,
    `_normalize_audio`, `_mix_audio` (with the `reduce_func` of
    `mix_audio`), `process_audio` and `multi_hot`, modelled in the
    namespace `Pipeline`,

and proves the spec's testable properties about them.  Audio samples and
gains are modelled as rationals (`ℚ`); tensor axes become nested lists;
every random draw (crop start, target gain, mix key) becomes an explicit
parameter constrained to the support the code samples from.
-/

namespace FilterScrub

/-- The runtime type tag of a Python value, as used by `isinstance` checks
and by `type(...) not in [list, np.ndarray]`. -/
inductive PyTag where
  | intT
  | strT
  | listT
deriving DecidableEq

/-- A scalar Python value (the element universe for record fields). -/
inductive PyScalar where
  | int (n : ℤ)
  | str (s : String)
deriving DecidableEq, Inhabited

/-- A Python value stored in a feature dictionary: a scalar or a
list/ndarray of scalars. -/
inductive PyVal where
  | scalar (v : PyScalar)
  | list (xs : List PyScalar)
deriving DecidableEq

/-- Runtime type of a scalar. -/
def PyScalar.tag : PyScalar → PyTag
  | .int _ => .intT
  | .str _ => .strT

/-- Runtime type of a value; every list/ndarray has the same tag. -/
def PyVal.tag : PyVal → PyTag
  | .scalar v => v.tag
  | .list _ => .listT

/-- The kind of Python exception raised. -/
inductive PyError where
  | keyError
  | typeError
  | valueError
deriving DecidableEq

/-- A feature dictionary: a finite mapping from field name to value,
modelled as a partial function. -/
def FeatureDict := String → Option PyVal

/-- Embedding of `not_in(feature_dict, key, values)`: raises
`ValueError` when `key` is absent, `TypeError` when some element of
`values` does not have the runtime type of `feature_dict[key]`, and
otherwise returns whether `feature_dict[key]` is not in `values`. -/
def not_in (d : FeatureDict) (key : String) (values : List PyVal) :
    Except PyError Bool :=
  match d key with
  | none => .error .valueError
  | some v =>
      if values.all (fun val => decide (val.tag = v.tag)) then
        .ok (decide (v ∉ values))
      else
        .error .typeError

/-- Embedding of `scrub(feature_dict, key, values)`: raises `ValueError`
when `key` is absent or `feature_dict[key]` is not a list/ndarray;
returns the dictionary unchanged when `values` or `feature_dict[key]` is
empty; raises `TypeError` when some element of `values` does not have
the runtime type of the list's first element; otherwise returns a copy
of the dictionary in which the list at `key` is filtered to exclude
every element of `values`. -/
def scrub (d : FeatureDict) (key : String) (values : List PyVal) :
    Except PyError FeatureDict :=
  match d key with
  | none => .error .valueError
  | some (.scalar _) => .error .valueError
  | some (.list xs) =>
      if values.isEmpty || xs.isEmpty then .ok d
      else
        match xs with
        | [] => .ok d
        | x0 :: _ =>
            if values.all (fun val => decide (val.tag = x0.tag)) then
              .ok (fun k =>
                if k = key then
                  some (.list (xs.filter
                    (fun x => decide (PyVal.scalar x ∉ values))))
                else d k)
            else
              .error .typeError

/-- Claim C7: for a record whose field `key` holds a non-empty list and a
non-empty `values` of matching element type, `scrub` returns a new record
identical to the input except that the list at `key` is replaced by its
subsequence excluding every element of `values` (a `List.filter`, which
preserves relative order and duplicates of kept elements); the input
record is never mutated (the embedding is pure, and the result binds a
fresh function).  When `values` or the field's list is empty, the record
is returned unchanged. -/
theorem scrub_spec (d : FeatureDict) (key : String) (values : List PyVal)
    (xs : List PyScalar) (hk : d key = some (.list xs)) :
    ((values = [] ∨ xs = []) → scrub d key values = .ok d) ∧
    (∀ x0 xs0, xs = x0 :: xs0 → values ≠ [] →
      (∀ val ∈ values, val.tag = x0.tag) →
      scrub d key values = .ok (fun k =>
        if k = key then
          some (.list (xs.filter (fun x => decide (PyVal.scalar x ∉ values))))
        else d k)) := by
  constructor
  · rintro (h | h) <;> subst h <;> simp [scrub, hk]
  · intro x0 xs0 hxs hne hall
    subst hxs
    have hve : values.isEmpty = false := by
      cases values with
      | nil => exact absurd rfl hne
      | cons v vs => rfl
    have hvall : values.all (fun val => decide (val.tag = x0.tag)) = true := by
      rw [List.all_eq_true]
      intro val hval
      exact decide_eq_true (hall val hval)
    simp [scrub, hk, hve, hvall]

/-- Witness for C7 at a concrete record: scrubbing the value `1` from the
field `"label" ↦ [1, 2, 1]` removes both occurrences and keeps `2`. -/
theorem scrub_spec_witness :
    scrub (fun k => if k = "label" then
        some (.list [.int 1, .int 2, .int 1]) else none)
      "label" [PyVal.scalar (.int 1)] = .ok (fun k =>
        if k = "label" then
          some (.list (([PyScalar.int 1, .int 2, .int 1]).filter
            (fun x => decide (PyVal.scalar x ∉ [PyVal.scalar (.int 1)]))))
        else (fun k' => if k' = "label" then
          some (.list [.int 1, .int 2, .int 1]) else none) k) :=
  (scrub_spec _ "label" _ [PyScalar.int 1, .int 2, .int 1] (by simp)).2
    (PyScalar.int 1) [PyScalar.int 2, .int 1] rfl (by decide) (by decide)

/-- Claim C8 counterexample: on a record without the key, both `not_in`
and `scrub` raise a `ValueError`-kind error (the code raises
`ValueError(f'{key} is not a correct field.')`), not the `KeyError`-kind
error the claim states. -/
theorem missing_key_counterexample :
    not_in (fun _ => none) "label" [] = .error .valueError ∧
    scrub (fun _ => none) "label" [] = .error .valueError ∧
    not_in (fun _ => none) "label" [] ≠ .error .keyError ∧
    scrub (fun _ => none) "label" [] ≠ .error .keyError := by
  refine ⟨rfl, rfl, ?_, ?_⟩ <;>
    · intro h
      exact absurd (Except.error.inj h) (by decide)

/-- Claim C8, amended: for every record and key, both `not_in` and `scrub`
fail with a `ValueError`-kind error (not a `KeyError`-kind one) when the
key is absent from the record — the same error kind the code uses for a
wrong container kind. -/
theorem missing_key_amended (d : FeatureDict) (key : String)
    (values : List PyVal) (h : d key = none) :
    not_in d key values = .error .valueError ∧
    scrub d key values = .error .valueError := by
  constructor
  · unfold not_in; rw [h]
  · unfold scrub; rw [h]

/-- Witness for the amended C8 on a concrete empty record. -/
theorem missing_key_amended_witness :
    not_in (fun _ => none) "filename" [] = .error .valueError ∧
    scrub (fun _ => none) "filename" [] = .error .valueError :=
  missing_key_amended (fun _ => none) "filename" [] rfl

end FilterScrub

namespace Pipeline

/-- `max_start_index` as computed by `_trim`:
`tf.maximum(tf.shape(audio)[0] - window_size, 1)`.  Natural-number
truncated subtraction agrees with the signed TensorFlow computation here
because any non-positive difference is clamped to `1` by the maximum. -/
def maxStartIndex (audio : List ℚ) (windowSize : ℕ) : ℕ :=
  max (audio.length - windowSize) 1

/-- Embedding of `_trim(audio, window_size)`.  The random draw
`tf.random.uniform([], 0, max_start_index, tf.int32)` is passed in as the
explicit parameter `startIndex`; theorems quantify over every draw in the
support `[0, maxStartIndex)`.  The slice
`audio[start_index : start_index + window_size]` is right-padded with
zeros to exactly `window_size` samples. -/
def _trim (audio : List ℚ) (windowSize startIndex : ℕ) :
    List ℚ × ℕ × ℕ :=
  let endIndex := startIndex + windowSize
  let trimmed := (audio.drop startIndex).take windowSize
  let padLength := windowSize - trimmed.length
  (trimmed ++ List.replicate padLength 0, startIndex, endIndex)

/-- `tf.reduce_max(tf.abs(audio))`, modelled as a fold of `max` with
identity `0`; since every `|x|` is non-negative this equals the true
maximum on any non-empty sequence. -/
def maxAbs (audio : List ℚ) : ℚ :=
  (audio.map (fun x => |x|)).foldr max 0

/-- Embedding of `_normalize_audio(audio, target_gain)`: computes
`gain_scalar = target_gain / (max_gain + 0.01)` and scales the audio by
it, returning both. -/
def _normalize_audio (audio : List ℚ) (targetGain : ℚ) :
    List ℚ × ℚ :=
  let gainScalar := targetGain / (maxAbs audio + 1 / 100)
  (audio.map (fun x => x * gainScalar), gainScalar)

/-- The part of a record that `process_audio` touches: the mixed waveform
and the per-source waveforms. -/
structure ProcExample where
  audio : List ℚ
  source_audio : List (List ℚ)

/-- Embedding of `process_audio(example, ...)`.  `windowSize` is
`window_size_s * sample_rate`; the two random draws (the crop start made
inside `_trim` and the uniform `target_gain`) are explicit parameters.
`source_audio[:, start_ind:end_ind] * gain_scalar` slices every source
row with the indices returned by `_trim` and scales it by the gain
returned by `_normalize_audio`. -/
def process_audio (ex : ProcExample) (windowSize startIndex : ℕ)
    (targetGain : ℚ) : ProcExample :=
  let (trimmed, s, e) := _trim ex.audio windowSize startIndex
  let (normAudio, gainScalar) := _normalize_audio trimmed targetGain
  { audio := normAudio
    source_audio := ex.source_audio.map
      (fun row => ((row.take e).drop s).map (fun x => x * gainScalar)) }

theorem trim_fst_length (audio : List ℚ) (windowSize startIndex : ℕ) :
    (_trim audio windowSize startIndex).1.length = windowSize := by
  simp only [_trim, List.length_append, List.length_replicate]
  have h : ((audio.drop startIndex).take windowSize).length ≤ windowSize := by
    simp [List.length_take]
  omega

/-- Claim C3: for every audio sequence, window size and random draw in the
support, `_trim` returns a trimmed sequence of length exactly
`window_size`, a start index in `[0, max(L - window_size, 1))` and
`end_index = start_index + window_size`; whenever `L ≤ window_size` the
start index is `0`. -/
theorem trim_spec (audio : List ℚ) (windowSize startIndex : ℕ)
    (hdraw : startIndex < maxStartIndex audio windowSize) :
    (_trim audio windowSize startIndex).1.length = windowSize ∧
    (_trim audio windowSize startIndex).2.1 = startIndex ∧
    startIndex < max (audio.length - windowSize) 1 ∧
    (_trim audio windowSize startIndex).2.2 = startIndex + windowSize ∧
    (audio.length ≤ windowSize → startIndex = 0) := by
  refine ⟨trim_fst_length audio windowSize startIndex, rfl, hdraw, rfl, ?_⟩
  intro hle
  have h1 : audio.length - windowSize = 0 := by omega
  rw [maxStartIndex, h1] at hdraw
  omega

/-- Witness for C3 at `audio = [1,2,3,4,5]`, `window_size = 2`,
`start_index = 1` (in the support since `max(5-2,1) = 3`). -/
theorem trim_spec_witness :
    1 < maxStartIndex [1, 2, 3, 4, 5] 2 ∧
    (_trim [1, 2, 3, 4, 5] 2 1).1.length = 2 ∧
    (_trim [1, 2, 3, 4, 5] 2 1).2.1 = 1 ∧
    (_trim [1, 2, 3, 4, 5] 2 1).2.2 = 1 + 2 :=
  have h : 1 < maxStartIndex [1, 2, 3, 4, 5] 2 := by
    simp [maxStartIndex]
  have hs := trim_spec [1, 2, 3, 4, 5] 2 1 h
  ⟨h, hs.1, hs.2.1, hs.2.2.2.1⟩

theorem maxAbs_nonneg (audio : List ℚ) : 0 ≤ maxAbs audio := by
  rw [maxAbs]
  induction audio with
  | nil => simp
  | cons a l ih =>
      simp only [List.map_cons, List.foldr_cons]
      exact le_max_of_le_right ih

theorem foldr_max_map_mul (l : List ℚ) (c : ℚ) (hc : 0 ≤ c) :
    (l.map (fun x => x * c)).foldr max 0 = l.foldr max 0 * c := by
  induction l with
  | nil => simp
  | cons a l ih =>
      simp only [List.map_cons, List.foldr_cons, ih]
      rw [max_mul_of_nonneg _ _ hc]

theorem maxAbs_map_mul (l : List ℚ) (c : ℚ) (hc : 0 ≤ c) :
    maxAbs (l.map (fun x => x * c)) = maxAbs l * c := by
  rw [maxAbs, maxAbs, List.map_map, ← foldr_max_map_mul _ c hc,
    List.map_map]
  have h : ((fun x => |x|) ∘ fun x => x * c) =
      ((fun x => x * c) ∘ fun x => |x|) := by
    funext x
    simp [Function.comp, abs_mul, abs_of_nonneg hc]
  rw [h]

/-- Claim C4: `_normalize_audio` returns `(audio * scale, scale)` with
`scale = target_gain / (max_gain + 0.01)` where `max_gain` is the maximum
absolute value of the input; hence for a non-negative target gain the
output's maximum absolute amplitude is
`target_gain * max_gain / (max_gain + 0.01)`, the denominator is never
zero, and an all-zero input yields an all-zero output. -/
theorem normalize_audio_spec (audio : List ℚ) (targetGain : ℚ)
    (htg : 0 ≤ targetGain) :
    (_normalize_audio audio targetGain).2 =
      targetGain / (maxAbs audio + 1 / 100) ∧
    (_normalize_audio audio targetGain).1 =
      audio.map (fun x => x * (targetGain / (maxAbs audio + 1 / 100))) ∧
    maxAbs audio + 1 / 100 ≠ 0 ∧
    maxAbs (_normalize_audio audio targetGain).1 =
      targetGain * maxAbs audio / (maxAbs audio + 1 / 100) ∧
    ((∀ x ∈ audio, x = 0) →
      ∀ y ∈ (_normalize_audio audio targetGain).1, y = 0) := by
  have hden : (0 : ℚ) < maxAbs audio + 1 / 100 := by
    have := maxAbs_nonneg audio
    linarith
  have hsc : 0 ≤ targetGain / (maxAbs audio + 1 / 100) :=
    div_nonneg htg (le_of_lt hden)
  refine ⟨rfl, rfl, ne_of_gt hden, ?_, ?_⟩
  · rw [show (_normalize_audio audio targetGain).1 =
        audio.map (fun x => x * (targetGain / (maxAbs audio + 1 / 100)))
      from rfl]
    rw [maxAbs_map_mul _ _ hsc, mul_comm, div_mul_eq_mul_div]
  · intro hz y hy
    rw [show (_normalize_audio audio targetGain).1 =
        audio.map (fun x => x * (targetGain / (maxAbs audio + 1 / 100)))
      from rfl] at hy
    obtain ⟨x, hx, rfl⟩ := List.mem_map.mp hy
    rw [hz x hx, zero_mul]

/-- Witness for C4 at `audio = [3, -4]`, `target_gain = 1/2`:
`max_gain = 4` and the output peak is `(1/2) * 4 / (4 + 1/100)`. -/
theorem normalize_audio_spec_witness :
    (0 : ℚ) ≤ 1 / 2 ∧
    maxAbs [3, -4] = 4 ∧
    maxAbs (_normalize_audio [3, -4] (1 / 2)).1 =
      (1 / 2) * maxAbs [3, -4] / (maxAbs [3, -4] + 1 / 100) :=
  ⟨by norm_num, by norm_num [maxAbs],
    (normalize_audio_spec [3, -4] (1 / 2) (by norm_num)).2.2.2.1⟩

/-- Claim C5: `process_audio` applies to every row of `source_audio`
exactly the crop window `[start_index, end_index)` that `_trim` chose for
the record's `audio` and exactly the gain scalar that `_normalize_audio`
applied to the trimmed `audio` — the output's `audio` being that
normalized trimmed waveform. -/
theorem process_audio_same_crop_scale (ex : ProcExample)
    (windowSize startIndex : ℕ) (targetGain : ℚ) :
    (process_audio ex windowSize startIndex targetGain).source_audio =
      ex.source_audio.map (fun row =>
        ((row.take (_trim ex.audio windowSize startIndex).2.2).drop
            (_trim ex.audio windowSize startIndex).2.1).map
          (fun x => x *
            (_normalize_audio (_trim ex.audio windowSize startIndex).1
              targetGain).2)) ∧
    (process_audio ex windowSize startIndex targetGain).audio =
      (_normalize_audio (_trim ex.audio windowSize startIndex).1
        targetGain).1 :=
  ⟨rfl, rfl⟩

/-- Claim C9: when the original audio length `L` is strictly below the
window size, `process_audio` outputs an `audio` of exactly `window_size`
samples (right zero-padded by `_trim`) while every row of `source_audio`
keeps only `L` samples: the slice `[start_index:end_index)` is clamped to
the row's length and never padded, so the two time lengths differ. -/
theorem source_audio_shorter (ex : ProcExample)
    (windowSize startIndex : ℕ) (targetGain : ℚ)
    (hL : ex.audio.length < windowSize)
    (hdraw : startIndex < maxStartIndex ex.audio windowSize)
    (hrows : ∀ row ∈ ex.source_audio, row.length = ex.audio.length) :
    (process_audio ex windowSize startIndex targetGain).audio.length =
      windowSize ∧
    (∀ row ∈
        (process_audio ex windowSize startIndex targetGain).source_audio,
      row.length = ex.audio.length) ∧
    ex.audio.length ≠ windowSize := by
  have hstart : startIndex = 0 := by
    rw [maxStartIndex, show ex.audio.length - windowSize = 0 by omega]
      at hdraw
    omega
  subst hstart
  refine ⟨?_, ?_, by omega⟩
  · show ((_normalize_audio (_trim ex.audio windowSize 0).1
        targetGain).1).length = windowSize
    rw [show (_normalize_audio (_trim ex.audio windowSize 0).1
          targetGain).1 =
        (_trim ex.audio windowSize 0).1.map
          (fun x => x * (_normalize_audio (_trim ex.audio windowSize 0).1
            targetGain).2) from rfl]
    rw [List.length_map]
    exact trim_fst_length ex.audio windowSize 0
  · intro row hrow
    rw [show (process_audio ex windowSize 0 targetGain).source_audio =
        ex.source_audio.map (fun r =>
          ((r.take (0 + windowSize)).drop 0).map
            (fun x => x * (_normalize_audio (_trim ex.audio windowSize 0).1
              targetGain).2)) from rfl] at hrow
    obtain ⟨r, hr, rfl⟩ := List.mem_map.mp hrow
    have hrlen := hrows r hr
    simp [List.length_take]
    omega

/-- Witness for C9 at a record with one audio sample, one source row and
window size `3`. -/
theorem source_audio_shorter_witness :
    (process_audio ⟨[1], [[1]]⟩ 3 0 1).audio.length = 3 ∧
    (∀ row ∈ (process_audio ⟨[1], [[1]]⟩ 3 0 1).source_audio,
      row.length = (([1] : List ℚ)).length) ∧
    (([1] : List ℚ)).length ≠ 3 :=
  source_audio_shorter ⟨[1], [[1]]⟩ 3 0 1 (by simp)
    (by simp [maxStartIndex]) (by simp)

/-- A record as produced by `multi_hot` and consumed by the mixer: the
categorical fields are multi-hot vectors and `source_audio` carries the
dummy leading source axis (`[num_sources, T]`, with `num_sources = 1`
right after encoding).  `filename` and `label_str` are absent from this
record type: `multi_hot` deletes them. -/
structure EncExample where
  audio : List ℚ
  source_audio : List (List ℚ)
  label : List ℕ
  genus : List ℕ
  family : List ℕ
  order : List ℕ
  bg_labels : List ℕ

/-- A window of records after `dataset.batch(...)` inside `reduce_func`:
every field gains a leading batch axis. -/
structure BatchedExample where
  audio : List (List ℚ)
  source_audio : List (List (List ℚ))
  label : List (List ℕ)
  genus : List (List ℕ)
  family : List (List ℕ)
  order : List (List ℕ)
  bg_labels : List (List ℕ)

/-- The record produced by `_mix_audio`: batch axes collapsed, two source
rows. -/
structure MixedExample where
  audio : List ℚ
  source_audio : List (List ℚ)
  label : List ℕ
  genus : List ℕ
  family : List ℕ
  order : List ℕ
  bg_labels : List ℕ

/-- What `dataset.batch` does to each group of records: stack every field
along a new leading axis. -/
def batchRecords (g : List EncExample) : BatchedExample :=
  ⟨g.map (·.audio), g.map (·.source_audio), g.map (·.label),
    g.map (·.genus), g.map (·.family), g.map (·.order),
    g.map (·.bg_labels)⟩

/-- `tf.reduce_max(t, axis=0)` on a stack of integer vectors. -/
def reduceMax (rows : List (List ℕ)) : List ℕ :=
  match rows with
  | [] => []
  | r :: rs => rs.foldl (fun a b => List.zipWith max a b) r

/-- `tf.reduce_sum(t, axis=0)` on a stack of rational vectors. -/
def reduceSum (rows : List (List ℚ)) : List ℚ :=
  match rows with
  | [] => []
  | r :: rs => rs.foldl (fun a b => List.zipWith (· + ·) a b) r

/-- `tf.reduce_mean(t, axis=0)` on a stack of rational vectors. -/
def reduceMean (rows : List (List ℚ)) : List ℚ :=
  (reduceSum rows).map (fun x => x / (rows.length : ℚ))

/-- `tf.zeros_like` on the `[num_sources, 1, T]` `source_audio` block. -/
def zerosLike (sa : List (List (List ℚ))) : List (List (List ℚ)) :=
  sa.map (fun block => block.map (fun row => row.map (fun _ => 0)))

/-- Embedding of `_mix_audio(examples)`: when the window holds a single
record, pad `source_audio` with a same-shape zero block (`tf.concat` with
`tf.zeros_like`); drop the dummy axis added by `multi_hot`
(`source_audio[:, 0]`); take the elementwise maximum of the multi-hot
fields over the batch axis; divide `source_audio` by
`examples['audio'].shape[0]` (the batch axis length of the still-stacked
`audio`); and replace `audio` by its elementwise mean over the batch
axis. -/
def _mix_audio (ex : BatchedExample) : MixedExample :=
  let sa := if ex.source_audio.length = 1 then
      ex.source_audio ++ zerosLike ex.source_audio
    else ex.source_audio
  let sa2 := sa.map (fun block => block.headD [])
  let divisor : ℚ := (ex.audio.length : ℚ)
  { audio := reduceMean ex.audio
    source_audio := sa2.map (fun row => row.map (fun x => x / divisor))
    label := reduceMax ex.label
    genus := reduceMax ex.genus
    family := reduceMax ex.family
    order := reduceMax ex.order
    bg_labels := reduceMax ex.bg_labels }

/-- `dataset.batch(n, drop_remainder=True)` on a finite window: split
into consecutive groups of exactly `n` records, discarding the final
incomplete group. -/
def batchDrop (n : ℕ) (xs : List EncExample) : List (List EncExample) :=
  if _h : 0 < n ∧ n ≤ xs.length then
    xs.take n :: batchDrop n (xs.drop n)
  else []
termination_by xs.length
decreasing_by
  simp only [List.length_drop]
  omega

/-- Embedding of `reduce_func(key, dataset)` inside `mix_audio`: windows
keyed `0` are batched one at a time, windows keyed `1` (the mixing path)
are batched two at a time with `drop_remainder=True`; `_mix_audio` is
mapped over the batches. -/
def reduce_func (key : ℕ) (window : List EncExample) :
    List MixedExample :=
  if key = 0 then
    (batchDrop 1 window).map (fun g => _mix_audio (batchRecords g))
  else
    (batchDrop 2 window).map (fun g => _mix_audio (batchRecords g))

/-- A multi-hot vector has only the entries `0` and `1`. -/
def isBinary (l : List ℕ) : Prop := ∀ b ∈ l, b ≤ 1

/-- All five categorical fields of a record are multi-hot vectors. -/
def BinaryFields (e : EncExample) : Prop :=
  isBinary e.label ∧ isBinary e.genus ∧ isBinary e.family ∧
    isBinary e.order ∧ isBinary e.bg_labels

theorem max_eq_lor (a b : ℕ) (ha : a ≤ 1) (hb : b ≤ 1) :
    max a b = a ||| b := by
  interval_cases a <;> interval_cases b <;> rfl

theorem zipWith_max_eq_lor (l1 l2 : List ℕ) (h1 : isBinary l1)
    (h2 : isBinary l2) :
    List.zipWith max l1 l2 = List.zipWith (· ||| ·) l1 l2 := by
  induction l1 generalizing l2 with
  | nil => simp
  | cons a l ih =>
      cases l2 with
      | nil => simp
      | cons b l2 =>
          simp only [List.zipWith_cons_cons]
          refine congrArg₂ _ ?_ ?_
          · exact max_eq_lor a b (h1 a (by simp)) (h2 b (by simp))
          · exact ih l2 (fun x hx => h1 x (List.mem_cons_of_mem _ hx))
              (fun x hx => h2 x (List.mem_cons_of_mem _ hx))

theorem reduceMax_pair (l1 l2 : List ℕ) :
    reduceMax [l1, l2] = List.zipWith max l1 l2 := rfl

theorem reduceMax_single (l : List ℕ) : reduceMax [l] = l := rfl

theorem map_div_zipWith_add (l1 l2 : List ℚ) :
    (List.zipWith (· + ·) l1 l2).map (fun x => x / 2) =
      List.zipWith (fun x y => (x + y) / 2) l1 l2 := by
  induction l1 generalizing l2 with
  | nil => simp
  | cons a l ih =>
      cases l2 with
      | nil => simp
      | cons b l2 => simp [ih]

theorem reduceMean_pair (l1 l2 : List ℚ) :
    reduceMean [l1, l2] = List.zipWith (fun x y => (x + y) / 2) l1 l2 := by
  rw [reduceMean,
    show reduceSum [l1, l2] = List.zipWith (· + ·) l1 l2 from rfl,
    show ((([l1, l2] : List (List ℚ)).length : ℕ) : ℚ) = 2 by norm_num]
  exact map_div_zipWith_add l1 l2

theorem mix_audio_pair_source (e1 e2 : EncExample)
    (h1 : e1.source_audio = [e1.audio])
    (h2 : e2.source_audio = [e2.audio]) :
    (_mix_audio (batchRecords [e1, e2])).source_audio =
      [e1.audio.map (fun x => x / 2), e2.audio.map (fun x => x / 2)] := by
  simp [_mix_audio, batchRecords, h1, h2]

theorem mix_single_source (e : EncExample)
    (he : e.source_audio = [e.audio]) :
    (_mix_audio (batchRecords [e])).source_audio =
      [e.audio, List.replicate e.audio.length 0] := by
  simp [_mix_audio, batchRecords, zerosLike, he]

/-- Claim C1: for a mixing window holding two single-source records, the
reducer's output has each multi-hot field (`label`, `genus`, `family`,
`order`, `bg_labels`) equal to the elementwise bitwise OR of the two
inputs' fields, `audio` equal to their elementwise mean, and the two
`source_audio` rows equal to the first and second input's audio divided
by `2`; for a window holding one record, the second `source_audio` row is
all-zero and every multi-hot field equals the lone input's field. -/
theorem mix_audio_reducer_spec (e1 e2 e : EncExample)
    (h1 : e1.source_audio = [e1.audio])
    (h2 : e2.source_audio = [e2.audio])
    (he : e.source_audio = [e.audio])
    (hb1 : BinaryFields e1) (hb2 : BinaryFields e2) :
    ((_mix_audio (batchRecords [e1, e2])).label =
        List.zipWith (· ||| ·) e1.label e2.label ∧
      (_mix_audio (batchRecords [e1, e2])).genus =
        List.zipWith (· ||| ·) e1.genus e2.genus ∧
      (_mix_audio (batchRecords [e1, e2])).family =
        List.zipWith (· ||| ·) e1.family e2.family ∧
      (_mix_audio (batchRecords [e1, e2])).order =
        List.zipWith (· ||| ·) e1.order e2.order ∧
      (_mix_audio (batchRecords [e1, e2])).bg_labels =
        List.zipWith (· ||| ·) e1.bg_labels e2.bg_labels ∧
      (_mix_audio (batchRecords [e1, e2])).audio =
        List.zipWith (fun x y => (x + y) / 2) e1.audio e2.audio ∧
      (_mix_audio (batchRecords [e1, e2])).source_audio =
        [e1.audio.map (fun x => x / 2), e2.audio.map (fun x => x / 2)]) ∧
    ((_mix_audio (batchRecords [e])).source_audio =
        [e.audio, List.replicate e.audio.length 0] ∧
      (_mix_audio (batchRecords [e])).label = e.label ∧
      (_mix_audio (batchRecords [e])).genus = e.genus ∧
      (_mix_audio (batchRecords [e])).family = e.family ∧
      (_mix_audio (batchRecords [e])).order = e.order ∧
      (_mix_audio (batchRecords [e])).bg_labels = e.bg_labels) := by
  obtain ⟨hbl1, hbg1, hbf1, hbo1, hbb1⟩ := hb1
  obtain ⟨hbl2, hbg2, hbf2, hbo2, hbb2⟩ := hb2
  refine ⟨⟨?_, ?_, ?_, ?_, ?_, ?_, ?_⟩, ?_, rfl, rfl, rfl, rfl, rfl⟩
  · exact zipWith_max_eq_lor _ _ hbl1 hbl2
  · exact zipWith_max_eq_lor _ _ hbg1 hbg2
  · exact zipWith_max_eq_lor _ _ hbf1 hbf2
  · exact zipWith_max_eq_lor _ _ hbo1 hbo2
  · exact zipWith_max_eq_lor _ _ hbb1 hbb2
  · exact reduceMean_pair e1.audio e2.audio
  · exact mix_audio_pair_source e1 e2 h1 h2
  · exact mix_single_source e he

/-- Witness for C1 on the spec's end-to-end example: labels `[1,0,0]` and
`[0,1,0]` mix to `[1,1,0]`, audio `[2]` and `[4]` mix to `[3]`, and the
source rows are `[1]` and `[2]`. -/
theorem mix_audio_reducer_spec_witness :
    (_mix_audio (batchRecords
        [(⟨[2], [[2]], [1, 0, 0], [], [], [], []⟩ : EncExample),
          (⟨[4], [[4]], [0, 1, 0], [], [], [], []⟩ : EncExample)])).label =
      List.zipWith (· ||| ·) [1, 0, 0] [0, 1, 0] ∧
    (_mix_audio (batchRecords
        [(⟨[2], [[2]], [1, 0, 0], [], [], [], []⟩ : EncExample),
          (⟨[4], [[4]], [0, 1, 0], [], [], [], []⟩ : EncExample)])).audio =
      List.zipWith (fun x y => (x + y) / 2) [(2 : ℚ)] [(4 : ℚ)] ∧
    (_mix_audio (batchRecords
        [(⟨[2], [[2]], [1, 0, 0], [], [], [], []⟩ : EncExample),
          (⟨[4], [[4]], [0, 1, 0], [], [], [], []⟩ : EncExample)])).source_audio =
      [([(2 : ℚ)]).map (fun x => x / 2), ([(4 : ℚ)]).map (fun x => x / 2)] ∧
    (_mix_audio (batchRecords
        [(⟨[2], [[2]], [1, 0, 0], [], [], [], []⟩ : EncExample)])).source_audio =
      [[(2 : ℚ)], List.replicate 1 0] :=
  have h := mix_audio_reducer_spec
    (⟨[2], [[2]], [1, 0, 0], [], [], [], []⟩ : EncExample)
    (⟨[4], [[4]], [0, 1, 0], [], [], [], []⟩ : EncExample)
    (⟨[2], [[2]], [1, 0, 0], [], [], [], []⟩ : EncExample)
    rfl rfl rfl (by unfold BinaryFields isBinary; decide)
    (by unfold BinaryFields isBinary; decide)
  ⟨h.1.1, h.1.2.2.2.2.2.1, h.1.2.2.2.2.2.2, h.2.1⟩

/-- Claim C2 counterexample: on a singleton window with audio `[2]` (and
`source_audio = [[2]]`), the reducer divides `source_audio` by the batch
size `1`, leaving `[[2],[0]]` — not `[[1],[0]]`, which dividing by the
fixed constant `2` would produce. -/
theorem mix_rescale_counterexample :
    (_mix_audio (batchRecords
        [(⟨[2], [[2]], [], [], [], [], []⟩ : EncExample)])).source_audio =
      [[(2 : ℚ)], [0]] ∧
    (_mix_audio (batchRecords
        [(⟨[2], [[2]], [], [], [], [], []⟩ : EncExample)])).source_audio ≠
      [[(2 : ℚ) / 2], [0 / 2]] := by
  constructor
  · simp [_mix_audio, batchRecords, zerosLike]
  · simp [_mix_audio, batchRecords, zerosLike]

/-- Claim C2, amended: in the reducer, `source_audio` is divided by the
number of records in the window (the batch axis length of the stacked
`audio`): by `2` in a pair window and by `1` in a singleton window — not
by the fixed constant `2` in both cases. -/
theorem mix_rescale_amended (e1 e2 e : EncExample)
    (h1 : e1.source_audio = [e1.audio])
    (h2 : e2.source_audio = [e2.audio])
    (he : e.source_audio = [e.audio]) :
    (_mix_audio (batchRecords [e1, e2])).source_audio =
      [e1.audio.map (fun x => x / 2), e2.audio.map (fun x => x / 2)] ∧
    (_mix_audio (batchRecords [e])).source_audio =
      [e.audio.map (fun x => x / 1),
        (e.audio.map (fun _ => (0 : ℚ))).map (fun x => x / 1)] := by
  refine ⟨mix_audio_pair_source e1 e2 h1 h2, ?_⟩
  simp [_mix_audio, batchRecords, zerosLike, he]

/-- Witness for the amended C2 on concrete one-sample records. -/
theorem mix_rescale_amended_witness :
    (_mix_audio (batchRecords
        [(⟨[2], [[2]], [], [], [], [], []⟩ : EncExample),
          (⟨[4], [[4]], [], [], [], [], []⟩ : EncExample)])).source_audio =
      [([(2 : ℚ)]).map (fun x => x / 2), ([(4 : ℚ)]).map (fun x => x / 2)] ∧
    (_mix_audio (batchRecords
        [(⟨[2], [[2]], [], [], [], [], []⟩ : EncExample)])).source_audio =
      [([(2 : ℚ)]).map (fun x => x / 1),
        (([(2 : ℚ)]).map (fun _ => (0 : ℚ))).map (fun x => x / 1)] :=
  mix_rescale_amended
    (⟨[2], [[2]], [], [], [], [], []⟩ : EncExample)
    (⟨[4], [[4]], [], [], [], [], []⟩ : EncExample)
    (⟨[2], [[2]], [], [], [], [], []⟩ : EncExample)
    rfl rfl rfl

/-- Claim C10: a mixing window (key `1`) that holds only a single record
— e.g. the flushed remainder at the end of the stream — produces no
output record at all: the reducer batches with size `2` and
`drop_remainder=True`, so the lone record is silently discarded. -/
theorem reduce_func_drops_lone_record (e : EncExample) :
    reduce_func 1 [e] = [] := by
  rw [reduce_func]
  norm_num
  rw [show batchDrop 2 [e] = [] by rw [batchDrop]; norm_num]

/-- A raw record as read from the dataset, before `multi_hot`: it still
carries `filename` and `label_str`, and its categorical fields are
variable-length sequences of class indices. -/
structure RawExample where
  filename : String
  label_str : String
  audio : List ℚ
  label : List ℕ
  genus : List ℕ
  family : List ℕ
  order : List ℕ
  bg_labels : List ℕ

/-- The vocabulary sizes the dataset info declares for the five
sequence-of-class-label fields. -/
structure Schema where
  labelClasses : ℕ
  genusClasses : ℕ
  familyClasses : ℕ
  orderClasses : ℕ
  bgLabelsClasses : ℕ

/-- `tf.one_hot(i, n)`: the length-`n` vector with a `1` at position `i`
(all zeros when `i ≥ n`, as in TensorFlow). -/
def oneHot (i n : ℕ) : List ℕ :=
  (List.range n).map (fun c => if c = i then 1 else 0)

/-- `tf.reduce_sum(t, axis=0)` on a stack of length-`n` one-hot rows,
with the empty stack summing to the zero vector. -/
def sumRows (n : ℕ) (rows : List (List ℕ)) : List ℕ :=
  rows.foldr (fun r acc => List.zipWith (· + ·) r acc) (List.replicate n 0)

/-- `tf.clip_by_value(v, 0, 1)` elementwise. -/
def clipByValue01 (v : List ℕ) : List ℕ :=
  v.map (fun x => min (max x 0) 1)

/-- The multi-hot encoding of one categorical field:
`clip_by_value(reduce_sum(one_hot(indices, n), axis=0), 0, 1)`. -/
def multiHotField (indices : List ℕ) (n : ℕ) : List ℕ :=
  clipByValue01 (sumRows n (indices.map (fun i => oneHot i n)))

/-- Embedding of `multi_hot(example, info)`: deletes `filename` and
`label_str` (the output record type has no such fields), replaces every
sequence-of-class-label field by its multi-hot encoding against the
schema's vocabulary size, and sets `source_audio` to `audio` with an
added leading axis of size 1 (`audio[tf.newaxis, ...]`). -/
def multi_hot (ex : RawExample) (s : Schema) : EncExample :=
  { audio := ex.audio
    source_audio := [ex.audio]
    label := multiHotField ex.label s.labelClasses
    genus := multiHotField ex.genus s.genusClasses
    family := multiHotField ex.family s.familyClasses
    order := multiHotField ex.order s.orderClasses
    bg_labels := multiHotField ex.bg_labels s.bgLabelsClasses }

theorem zipWith_add_map (l : List ℕ) (f g : ℕ → ℕ) :
    List.zipWith (· + ·) (l.map f) (l.map g) =
      l.map (fun c => f c + g c) := by
  induction l with
  | nil => rfl
  | cons a l ih => simp [ih]

theorem sumRows_map_oneHot (indices : List ℕ) (n : ℕ) :
    sumRows n (indices.map (fun i => oneHot i n)) =
      (List.range n).map (fun c => indices.count c) := by
  induction indices with
  | nil =>
      simp [sumRows, List.count_nil, List.map_const', List.length_range]
  | cons i is ih =>
      rw [List.map_cons,
        show sumRows n (oneHot i n :: is.map (fun j => oneHot j n)) =
          List.zipWith (· + ·) (oneHot i n)
            (sumRows n (is.map (fun j => oneHot j n))) from rfl,
        ih, oneHot, zipWith_add_map]
      refine List.map_congr_left ?_
      intro c _
      rw [List.count_cons]
      by_cases h : c = i
      · simp [h, Nat.add_comm]
      · simp [h, Ne.symm h, Nat.add_comm]

theorem multiHotField_eq_indicator (indices : List ℕ) (n : ℕ) :
    multiHotField indices n =
      (List.range n).map (fun c => if c ∈ indices then 1 else 0) := by
  rw [multiHotField, clipByValue01, sumRows_map_oneHot, List.map_map]
  refine List.map_congr_left ?_
  intro c _
  simp only [Function.comp]
  by_cases h : c ∈ indices
  · have hpos : 0 < indices.count c := List.count_pos_iff.mpr h
    simp only [if_pos h]
    omega
  · have hz : indices.count c = 0 := List.count_eq_zero.mpr h
    simp [h, hz]

theorem count_one_map_indicator (l : List ℕ) (p : ℕ → Prop)
    [DecidablePred p] :
    (l.map (fun c => if p c then 1 else 0)).count 1 =
      (l.filter (fun c => decide (p c))).length := by
  induction l with
  | nil => rfl
  | cons a l ih =>
      by_cases h : p a <;>
        simp [h, List.count_cons, List.filter_cons, ih]

theorem multiHotField_spec (indices : List ℕ) (n : ℕ) :
    (multiHotField indices n).length = n ∧
    (∀ b ∈ multiHotField indices n, b = 0 ∨ b = 1) ∧
    ((∀ i ∈ indices, i < n) →
      (multiHotField indices n).count 1 = indices.dedup.length) := by
  rw [multiHotField_eq_indicator]
  refine ⟨by simp, ?_, ?_⟩
  · intro b hb
    obtain ⟨c, _, rfl⟩ := List.mem_map.mp hb
    by_cases h : c ∈ indices <;> simp [h]
  · intro hbound
    rw [count_one_map_indicator]
    have hnd : ((List.range n).filter
        (fun c => decide (c ∈ indices))).Nodup :=
      (List.nodup_range n).filter _
    rw [← List.toFinset_card_of_nodup hnd, ← List.card_toFinset]
    congr 1
    ext c
    simp only [List.mem_toFinset, List.mem_filter, List.mem_range,
      decide_eq_true_eq]
    exact ⟨fun h => h.2, fun h => ⟨hbound c h, h⟩⟩

/-- Claim C6: `multi_hot` replaces every schema-declared
sequence-of-class-label field by a vector of length equal to that field's
vocabulary size whose entries all lie in `{0,1}` and whose number of set
bits equals the number of distinct classes present in the input sequence
(counting repeats once); it drops `filename` and `label_str` (the output
record type `EncExample` has no such fields) and sets `source_audio` to
`audio` with an added leading axis of size 1. -/
theorem multi_hot_spec (ex : RawExample) (s : Schema) :
    (multi_hot ex s).source_audio = [ex.audio] ∧
    ((multi_hot ex s).label.length = s.labelClasses ∧
      (∀ b ∈ (multi_hot ex s).label, b = 0 ∨ b = 1) ∧
      ((∀ i ∈ ex.label, i < s.labelClasses) →
        (multi_hot ex s).label.count 1 = ex.label.dedup.length)) ∧
    ((multi_hot ex s).genus.length = s.genusClasses ∧
      (∀ b ∈ (multi_hot ex s).genus, b = 0 ∨ b = 1) ∧
      ((∀ i ∈ ex.genus, i < s.genusClasses) →
        (multi_hot ex s).genus.count 1 = ex.genus.dedup.length)) ∧
    ((multi_hot ex s).family.length = s.familyClasses ∧
      (∀ b ∈ (multi_hot ex s).family, b = 0 ∨ b = 1) ∧
      ((∀ i ∈ ex.family, i < s.familyClasses) →
        (multi_hot ex s).family.count 1 = ex.family.dedup.length)) ∧
    ((multi_hot ex s).order.length = s.orderClasses ∧
      (∀ b ∈ (multi_hot ex s).order, b = 0 ∨ b = 1) ∧
      ((∀ i ∈ ex.order, i < s.orderClasses) →
        (multi_hot ex s).order.count 1 = ex.order.dedup.length)) ∧
    ((multi_hot ex s).bg_labels.length = s.bgLabelsClasses ∧
      (∀ b ∈ (multi_hot ex s).bg_labels, b = 0 ∨ b = 1) ∧
      ((∀ i ∈ ex.bg_labels, i < s.bgLabelsClasses) →
        (multi_hot ex s).bg_labels.count 1 = ex.bg_labels.dedup.length)) :=
  ⟨rfl, multiHotField_spec ex.label s.labelClasses,
    multiHotField_spec ex.genus s.genusClasses,
    multiHotField_spec ex.family s.familyClasses,
    multiHotField_spec ex.order s.orderClasses,
    multiHotField_spec ex.bg_labels s.bgLabelsClasses⟩

/-- Witness for C6: a label sequence `[0, 2, 0]` with a repeat, vocab
size 3, has exactly 2 set bits — the number of distinct classes. -/
theorem multi_hot_spec_witness :
    (∀ i ∈ ([0, 2, 0] : List ℕ), i < 3) ∧
    (multi_hot ⟨"f.wav", "sp", [1], [0, 2, 0], [], [], [], []⟩
        ⟨3, 0, 0, 0, 0⟩).label.count 1 =
      ([0, 2, 0] : List ℕ).dedup.length :=
  ⟨by decide,
    (multi_hot_spec ⟨"f.wav", "sp", [1], [0, 2, 0], [], [], [], []⟩
      ⟨3, 0, 0, 0, 0⟩).2.1.2.2 (by decide)⟩

end Pipeline
